/-
Verification of the isekai-core automation scheduling engine.

The repository ships the frontend schedule-rule evaluator and formatters
(`calculateNextRunTime`, `formatNextRunTime`, `formatJitterSeconds`), an
adaptive rate limiter and a circuit breaker (configured in
`packages/shared/src/config.ts`), and the image-URL helper `thumb`.
The evaluator, formatters, rate limiter and circuit breaker are present in
the repository only through their test suites and configuration surface, so
they are modelled here from the specification document; `thumb` is embedded
directly from its source.

Time is modelled as natural numbers of milliseconds since the Unix epoch,
with local time identified with UTC (the tests pin the system clock to a
UTC instant).
-/
import Mathlib

namespace Isekai

/-! ### Time arithmetic -/

def msPerMinute : Nat := 60000

def msPerHour : Nat := 3600000

def msPerDay : Nat := 86400000

/-- Weekday name of an epoch day number; epoch day 0 (1970-01-01) was a
Thursday, so index `(day + 4) % 7` into the week starting at Sunday. -/
def weekdayName (day : Nat) : String :=
  match (day + 4) % 7 with
  | 0 => "sunday"
  | 1 => "monday"
  | 2 => "tuesday"
  | 3 => "wednesday"
  | 4 => "thursday"
  | 5 => "friday"
  | _ => "saturday"

/-! ### Parsing `"HH:MM"` -/

/-- Split a character list at its first colon. -/
def splitOnceColon : List Char → Option (List Char × List Char)
  | [] => none
  | c :: rest =>
    if c = ':' then some ([], rest)
    else
      match splitOnceColon rest with
      | some (a, b) => some (c :: a, b)
      | none => none

/-- Read a nonempty all-digit character list as a number. -/
def digitsToNat (cs : List Char) : Option Nat :=
  if cs ≠ [] ∧ cs.all (fun c => c.isDigit) then
    some (cs.foldl (fun n c => n * 10 + (c.toNat - 48)) 0)
  else
    none

/-- Modelled from the spec: the evaluator's `timeOfDay` parser (the
implementation file `automation-utils.ts` is absent from the sources; only
its tests are present).  Parses `"HH:MM"` (24h): exactly one colon,
nonempty digit runs on both sides, hours below 24 and minutes below 60;
anything else fails. -/
def parseTimeOfDay (s : String) : Option (Nat × Nat) :=
  match splitOnceColon s.toList with
  | none => none
  | some (hs, ms) =>
    match digitsToNat hs, digitsToNat ms with
    | some h, some m => if h < 24 ∧ m < 60 then some (h, m) else none
    | _, _ => none

/-! ### Data model -/

/-- A schedule rule, as the loosely-typed rule objects of the repository:
a `type` discriminant with type-specific optional fields. -/
structure ScheduleRule where
  enabled : Bool
  type : String
  timeOfDay : Option String := none
  daysOfWeek : Option (List String) := none
  intervalMinutes : Option Nat := none
  quotaPerDay : Option Nat := none
deriving DecidableEq, Repr

/-- An automation: an enabled flag and an optional rule list (the field may
be absent altogether). -/
structure Automation where
  enabled : Bool
  scheduleRules : Option (List ScheduleRule) := none
deriving DecidableEq, Repr

/-! ### Schedule rule evaluator

Modelled from the spec: `calculateNextRunTime` lives in
`apps/isekai-frontend/src/lib/automation-utils.ts`, which is absent from
the sources (only `automation-utils.test.ts` is present).  The definitions
below follow §4.1 of the specification. -/

/-- The worker poll tick: 5 minutes. -/
def pollTickMs : Nat := 5 * msPerMinute

/-- Modelled from the spec: the approximate candidate for `fixed_interval`
and `daily_quota` rules is the next poll tick boundary strictly after
`now`. -/
def nextPollTick (now : Nat) : Nat :=
  (now / pollTickMs + 1) * pollTickMs

/-- The instant of day `now/msPerDay + d` at time of day `h:m`. -/
def candAt (now h m d : Nat) : Nat :=
  (now / msPerDay + d) * msPerDay + (h * 60 + m) * msPerMinute

/-- Whether day offset `d` from `now`'s date is accepted for a `fixed_time`
rule at `h:m` with day-of-week constraint `dows`: the instant must be
strictly in the future (for later days this is automatic, so this agrees
with "on/after `now`, strictly future on the same day"), and when `dows`
is non-null the weekday must be a member. -/
def acceptDay (now h m : Nat) (dows : Option (List String)) (d : Nat) : Bool :=
  decide (now < candAt now h m d) &&
    (match dows with
     | none => true
     | some l => l.contains (weekdayName (now / msPerDay + d)))

/-- Modelled from the spec: scan day offsets `d, d+1, ...` (at most `fuel`
of them) and return the instant of the first accepted day. -/
def fixedTimeScan (now h m : Nat) (dows : Option (List String)) :
    Nat → Nat → Option Nat
  | 0, _ => none
  | fuel + 1, d =>
    if acceptDay now h m dows d then some (candAt now h m d)
    else fixedTimeScan now h m dows fuel (d + 1)

/-- Modelled from the spec: the `fixed_time` candidate.  Parse `timeOfDay`
as `HH:MM`; on failure or absence the rule yields no candidate; otherwise
scan the 8 days starting at `now`'s date for the first accepted one. -/
def fixedTimeCandidate (now : Nat) (r : ScheduleRule) : Option Nat :=
  match r.timeOfDay with
  | none => none
  | some s =>
    match parseTimeOfDay s with
    | none => none
    | some (h, m) => fixedTimeScan now h m r.daysOfWeek 8 0

/-- Modelled from the spec: the candidate instant contributed by a single
rule; disabled, unknown-typed or malformed rules contribute none. -/
def ruleCandidate (now : Nat) (r : ScheduleRule) : Option Nat :=
  if !r.enabled then none
  else if r.type = "fixed_time" then fixedTimeCandidate now r
  else if r.type = "fixed_interval" then some (nextPollTick now)
  else if r.type = "daily_quota" then some (nextPollTick now)
  else none

/-- Minimum of a list of instants, `none` when empty. -/
def minCandidate : List Nat → Option Nat
  | [] => none
  | x :: xs => some (xs.foldl Nat.min x)

/-- Modelled from the spec: `calculateNextRunTime`.  `none` for a null or
disabled automation or absent rules; otherwise the earliest candidate
among the enabled rules, or `none` when no rule yields one. -/
def calculateNextRunTime (auto : Option Automation) (now : Nat) : Option Nat :=
  match auto with
  | none => none
  | some a =>
    if !a.enabled then none
    else
      match a.scheduleRules with
      | none => none
      | some rules => minCandidate (rules.filterMap (ruleCandidate now))

/-! ### Human-readable time formatter

Modelled from the spec: `formatNextRunTime` (in the absent
`automation-utils.ts`) and `formatJitterSeconds` (in the absent
`timezone.ts`), following §4.2 of the specification. -/

/-- Civil date `(year, month, day)` of an epoch day number (valid for days
on or after 1970-01-01), by the standard era decomposition. -/
def civilFromDays (z : Nat) : Nat × Nat × Nat :=
  let z' := z + 719468
  let era := z' / 146097
  let doe := z' % 146097
  let yoe := (doe - doe / 1460 + doe / 36524 - doe / 146096) / 365
  let y := yoe + era * 400
  let doy := doe - (365 * yoe + yoe / 4 - yoe / 100)
  let mp := (5 * doy + 2) / 153
  let d := doy - (153 * mp + 2) / 5 + 1
  let mo := if mp < 10 then mp + 3 else mp - 9
  (if mo ≤ 2 then y + 1 else y, mo, d)

/-- Two-digit zero padding. -/
def pad2 (n : Nat) : String :=
  if n < 10 then "0" ++ toString n else toString n

/-- Modelled from the spec: the absolute date/time rendering used for runs
at least a week away, `"YYYY-MM-DD HH:MM"`. -/
def formatAbsolute (t : Nat) : String :=
  let c := civilFromDays (t / msPerDay)
  toString c.1 ++ "-" ++ pad2 c.2.1 ++ "-" ++ pad2 c.2.2 ++ " " ++
    pad2 (t % msPerDay / msPerHour) ++ ":" ++ pad2 (t % msPerHour / msPerMinute)

/-- Modelled from the spec: `formatNextRunTime` delegates to the
evaluator, renders `"Not scheduled"` on `none`, and otherwise tiers the
delta to `now` as sub-minute, minutes, hours, days, or an absolute
date/time once at least a week away. -/
def formatNextRunTime (auto : Option Automation) (now : Nat) : String :=
  match calculateNextRunTime auto now with
  | none => "Not scheduled"
  | some t =>
    let delta := t - now
    if delta < msPerMinute then "In <1m"
    else if delta < msPerHour then "In " ++ toString (delta / msPerMinute) ++ "m"
    else if delta < msPerDay then "In " ++ toString (delta / msPerHour) ++ "h"
    else if delta < 7 * msPerDay then "In " ++ toString (delta / msPerDay) ++ "d"
    else formatAbsolute t

/-- Modelled from the spec: `formatJitterSeconds` renders a whole-second
duration as `"Ns"` below a minute, `"Nm"` on an exact minute, and
`"Nm Ss"` otherwise. -/
def formatJitterSeconds (n : Nat) : String :=
  if n < 60 then toString n ++ "s"
  else if n % 60 = 0 then toString (n / 60) ++ "m"
  else toString (n / 60) ++ "m " ++ toString (n % 60) ++ "s"

/-! ### Adaptive rate limiter

Modelled from the spec: the per-target delay controller of §4.3 (only its
configuration surface, `getRateLimiterConfig` in
`packages/shared/src/config.ts`, is present in the sources).  The delay is
modelled as a rational number, the idealisation of the float
`currentDelayMs`. -/

/-- The rate limiter configuration, as `RateLimiterConfig` in
`packages/shared/src/config.ts` (jitter and the enabled flag do not affect
the recorded delay and are omitted from the state model). -/
structure RateLimiterCfg where
  baseDelayMs : ℚ
  maxDelayMs : ℚ
  successDecreaseFactor : ℚ
  failureIncreaseFactor : ℚ

/-- Modelled from the spec: recording an outcome updates the current
delay; success multiplies by the decrease factor floored at the base,
failure multiplies by the increase factor capped at the max. -/
def recordDelayOutcome (cfg : RateLimiterCfg) (success : Bool) (d : ℚ) : ℚ :=
  if success then max (d * cfg.successDecreaseFactor) cfg.baseDelayMs
  else min (d * cfg.failureIncreaseFactor) cfg.maxDelayMs

/-- Modelled from the spec: the delay after a sequence of recorded
outcomes, starting from the base delay. -/
def runDelayOutcomes (cfg : RateLimiterCfg) (outs : List Bool) : ℚ :=
  outs.foldl (fun d o => recordDelayOutcome cfg o d) cfg.baseDelayMs

/-! ### Circuit breaker

Modelled from the spec: the per-target breaker of §4.4 (only its
configuration surface, `getCircuitBreakerConfig` in
`packages/shared/src/config.ts`, is present in the sources). -/

inductive BreakerStatus where
  | closed
  | opened
  | halfOpen
deriving DecidableEq, Repr

/-- Per-target circuit breaker state; `openedAt` is meaningful while the
breaker is open. -/
structure BreakerState where
  status : BreakerStatus
  consecutiveFailures : Nat
  openedAt : Nat
deriving DecidableEq, Repr

/-- The initial (closed) breaker state. -/
def initialBreaker : BreakerState :=
  { status := .closed, consecutiveFailures := 0, openedAt := 0 }

/-- Modelled from the spec: `allow(target)`.  Closed lets the attempt
through; open refuses until `openDurationMs` has elapsed since `openedAt`,
after which the state moves to half-open and the attempt is let through as
the single probe; a further call while half-open (probe outstanding) is
refused. -/
def breakerAllow (openDurationMs now : Nat) (s : BreakerState) :
    Bool × BreakerState :=
  match s.status with
  | .closed => (true, s)
  | .halfOpen => (false, s)
  | .opened =>
    if now < s.openedAt + openDurationMs then (false, s)
    else (true, { s with status := .halfOpen })

/-- Modelled from the spec: `recordOutcome(target, success)`.  Success
resets the failure count and closes a half-open breaker; failure
increments the count, and opens the breaker (stamping `openedAt := now`)
when half-open or when the count reaches the threshold. -/
def breakerRecord (threshold now : Nat) (success : Bool) (s : BreakerState) :
    BreakerState :=
  if success then
    { s with consecutiveFailures := 0,
             status := if s.status = .halfOpen then .closed else s.status }
  else
    let n := s.consecutiveFailures + 1
    if s.status = .halfOpen ∨ threshold ≤ n then
      { status := .opened, consecutiveFailures := n, openedAt := now }
    else
      { s with consecutiveFailures := n }

/-- Record `k` consecutive failures at time `now` on top of `s`. -/
def breakerFailures (threshold now : Nat) (s : BreakerState) : Nat → BreakerState
  | 0 => s
  | k + 1 => breakerRecord threshold now false (breakerFailures threshold now s k)

/-! ### Image URL helper `thumb`

Embedded from the source (`src/unnamed/part_000`). -/

/-- A query parameter list rendered as `URLSearchParams.toString()` does:
`k=v` pairs joined by `&` in insertion order (the values used here need no
percent-encoding). -/
def paramsToString (ps : List (String × String)) : String :=
  String.intercalate "&" (ps.map (fun p => p.1 ++ "=" ++ p.2))

/-- The helper `thumb` from the source: empty output on a null/undefined/empty url;
otherwise append the resize parameters (`w` always; `f` and `q` only when
provided and truthy) with `&` when the url already has a query string and
`?` otherwise. -/
def thumb (url : Option String) (width : Nat := 400)
    (format : Option String := none) (quality : Option Nat := none) : String :=
  match url with
  | none => ""
  | some u =>
    if u = "" then ""
    else
      let ps := [("w", toString width)]
        ++ (match format with
            | some f => if f ≠ "" then [("f", f)] else []
            | none => [])
        ++ (match quality with
            | some q => if q ≠ 0 then [("q", toString q)] else []
            | none => [])
      let sep := if u.toList.contains '?' then "&" else "?"
      u ++ sep ++ paramsToString ps

/-! ### Concrete fixtures from the test suite

The tests pin the clock to `2025-01-15T10:00:00Z`; 2025-01-15 is epoch day
20103, a Wednesday. -/

/-- Epoch day number of 2025-01-15. -/
def day20250115 : Nat := 20103

/-- The pinned instant 2025-01-15T10:00:00Z in epoch milliseconds. -/
def t20250115T1000 : Nat := day20250115 * msPerDay + 10 * msPerHour

/-- Fixture: enabled `fixed_time` rule at 14:30, no day constraint. -/
def rule1430 : ScheduleRule :=
  { enabled := true, type := "fixed_time", timeOfDay := some "14:30",
    daysOfWeek := none }

/-- Fixture: enabled `fixed_time` rule at 08:00, no day constraint. -/
def rule0800 : ScheduleRule :=
  { enabled := true, type := "fixed_time", timeOfDay := some "08:00",
    daysOfWeek := none }

/-- Fixture: enabled `fixed_time` rule at 20:00, no day constraint. -/
def rule2000 : ScheduleRule :=
  { enabled := true, type := "fixed_time", timeOfDay := some "20:00",
    daysOfWeek := none }

/-- Fixture: enabled `fixed_time` rule at 12:00, no day constraint. -/
def rule1200 : ScheduleRule :=
  { enabled := true, type := "fixed_time", timeOfDay := some "12:00",
    daysOfWeek := none }

/-- Fixture: enabled `fixed_time` rule with an unparseable `timeOfDay`. -/
def ruleInvalid : ScheduleRule :=
  { enabled := true, type := "fixed_time", timeOfDay := some "invalid",
    daysOfWeek := none }

/-- Fixture: automation with a single rule. -/
def autoWith (r : ScheduleRule) : Automation :=
  { enabled := true, scheduleRules := some [r] }

/-! ## Theorems -/

/-- C7: for every enabled `fixed_interval` or `daily_quota` rule the
evaluator does not compute an exact interval- or quota-based instant: it
returns the next 5-minute poll tick boundary, which is strictly after
`now` and at most 5 minutes after `now`. -/
theorem ruleCandidate_poll_approx (now : Nat) (r : ScheduleRule)
    (he : r.enabled = true)
    (ht : r.type = "fixed_interval" ∨ r.type = "daily_quota") :
    ruleCandidate now r = some (nextPollTick now) ∧
    now < nextPollTick now ∧ nextPollTick now ≤ now + 5 * msPerMinute := by
  refine ⟨?_, ?_, ?_⟩
  · rcases ht with h | h <;>
      · unfold ruleCandidate
        rw [h, he]
        simp
  · simp only [nextPollTick, pollTickMs, msPerMinute]
    omega
  · simp only [nextPollTick, pollTickMs, msPerMinute]
    omega

/-- C7 witness: a concrete enabled `fixed_interval` rule at
2025-01-15T10:00:00Z. -/
theorem ruleCandidate_poll_approx_witness :
    ruleCandidate t20250115T1000
        { enabled := true, type := "fixed_interval", intervalMinutes := some 30 } =
      some (nextPollTick t20250115T1000) ∧
    nextPollTick t20250115T1000 = t20250115T1000 + 5 * msPerMinute := by
  refine ⟨(ruleCandidate_poll_approx _ _ rfl (Or.inl rfl)).1, by decide⟩

/-- C8: `formatJitterSeconds` renders `"Ns"` below a minute, `"Nm"` on an
exact multiple of 60, and `"Nm Ss"` otherwise, with the three concrete
values of the test suite. -/
theorem formatJitterSeconds_spec (n : Nat) :
    (n < 60 → formatJitterSeconds n = toString n ++ "s") ∧
    (60 ≤ n → n % 60 = 0 → formatJitterSeconds n = toString (n / 60) ++ "m") ∧
    (60 ≤ n → n % 60 ≠ 0 →
      formatJitterSeconds n = toString (n / 60) ++ "m " ++ toString (n % 60) ++ "s") ∧
    formatJitterSeconds 0 = "0s" ∧ formatJitterSeconds 90 = "1m 30s" ∧
    formatJitterSeconds 300 = "5m" := by
  refine ⟨?_, ?_, ?_, by decide, by decide, by decide⟩
  · intro h
    rw [formatJitterSeconds, if_pos h]
  · intro h h0
    rw [formatJitterSeconds, if_neg (by omega), if_pos h0]
  · intro h h0
    rw [formatJitterSeconds, if_neg (by omega), if_neg h0]

/-- C8 witness: the mixed tier at 90 seconds. -/
theorem formatJitterSeconds_spec_witness :
    formatJitterSeconds 90 = toString (90 / 60) ++ "m " ++ toString (90 % 60) ++ "s" :=
  (formatJitterSeconds_spec 90).2.2.1 (by decide) (by decide)

/-- C9: the evaluator is a pure function of the automation and `now`: two
calls with equal inputs yield identical results. -/
theorem calculateNextRunTime_deterministic (a₁ a₂ : Option Automation)
    (n₁ n₂ : Nat) (ha : a₁ = a₂) (hn : n₁ = n₂) :
    calculateNextRunTime a₁ n₁ = calculateNextRunTime a₂ n₂ := by
  rw [ha, hn]

/-- C9 witness: two calls on a concrete automation at
2025-01-15T10:00:00Z. -/
theorem calculateNextRunTime_deterministic_witness :
    calculateNextRunTime (some (autoWith rule1430)) t20250115T1000 =
      calculateNextRunTime (some (autoWith rule1430)) t20250115T1000 :=
  calculateNextRunTime_deterministic _ _ _ _ rfl rfl

/-- C10: `thumb` returns `""` on a null/undefined/empty url, and otherwise
appends the resize parameters with `&` exactly when the url already
contains `?`, always including `w=<width>` and including `f=<format>` and
`q=<quality>` exactly when provided and truthy. -/
theorem thumb_spec (u : String) (w : Nat) (f : Option String) (q : Option Nat) :
    thumb none w f q = "" ∧
    thumb (some "") w f q = "" ∧
    (u ≠ "" →
      thumb (some u) w f q =
        u ++ (if u.toList.contains '?' then "&" else "?") ++
          ("w=" ++ toString w ++
            (match f with
             | some s => if s ≠ "" then "&f=" ++ s else ""
             | none => "") ++
            (match q with
             | some k => if k ≠ 0 then "&q=" ++ toString k else ""
             | none => ""))) := by
  refine ⟨rfl, rfl, ?_⟩
  intro hu
  apply String.ext
  rcases f with _ | s <;> rcases q with _ | k
  · simp only [thumb]
    by_cases hc : '?' ∈ u.data <;>
      simp [hu, hc, paramsToString, String.intercalate, String.intercalate.go,
        String.data_append]
  · by_cases hk : k = 0 <;> simp only [thumb] <;>
      (by_cases hc : '?' ∈ u.data <;>
        simp [hu, hk, hc, paramsToString, String.intercalate,
          String.intercalate.go, String.data_append])
  · by_cases hs : s = "" <;> simp only [thumb] <;>
      (by_cases hc : '?' ∈ u.data <;>
        simp [hu, hs, hc, paramsToString, String.intercalate,
          String.intercalate.go, String.data_append])
  · by_cases hs : s = "" <;> by_cases hk : k = 0 <;> simp only [thumb] <;>
      (by_cases hc : '?' ∈ u.data <;>
        simp [hu, hs, hk, hc, paramsToString, String.intercalate,
          String.intercalate.go, String.data_append])

/-- C10 witness: a concrete url without a query string, with format and
quality provided. -/
theorem thumb_spec_witness :
    thumb (some "https://x/y.png") 400 (some "webp") (some 80) =
      "https://x/y.png?w=400&f=webp&q=80" := by
  have h := (thumb_spec "https://x/y.png" 400 (some "webp") (some 80)).2.2
    (by decide)
  rw [h]
  decide

/-- A single recorded outcome keeps the delay inside
`[baseDelayMs, maxDelayMs]`. -/
theorem recordDelayOutcome_mem (cfg : RateLimiterCfg)
    (hb0 : 0 ≤ cfg.baseDelayMs) (hbm : cfg.baseDelayMs ≤ cfg.maxDelayMs)
    (hs0 : 0 ≤ cfg.successDecreaseFactor) (hs1 : cfg.successDecreaseFactor < 1)
    (hf : 1 < cfg.failureIncreaseFactor) (o : Bool) (d : ℚ)
    (h1 : cfg.baseDelayMs ≤ d) (h2 : d ≤ cfg.maxDelayMs) :
    cfg.baseDelayMs ≤ recordDelayOutcome cfg o d ∧
    recordDelayOutcome cfg o d ≤ cfg.maxDelayMs := by
  have hd0 : 0 ≤ d := le_trans hb0 h1
  cases o with
  | false =>
    refine ⟨le_min (le_trans h1 ?_) hbm, ?_⟩
    · exact le_mul_of_one_le_right hd0 (le_of_lt hf)
    · exact min_le_right _ _
  | true =>
    refine ⟨le_max_right _ _, max_le (le_trans ?_ h2) hbm⟩
    exact mul_le_of_le_one_right hd0 (le_of_lt hs1)

/-- The delay after any prefix of outcomes stays inside the interval,
starting anywhere inside it. -/
theorem foldDelay_mem (cfg : RateLimiterCfg)
    (hb0 : 0 ≤ cfg.baseDelayMs) (hbm : cfg.baseDelayMs ≤ cfg.maxDelayMs)
    (hs0 : 0 ≤ cfg.successDecreaseFactor) (hs1 : cfg.successDecreaseFactor < 1)
    (hf : 1 < cfg.failureIncreaseFactor) :
    ∀ (outs : List Bool) (d : ℚ), cfg.baseDelayMs ≤ d → d ≤ cfg.maxDelayMs →
      cfg.baseDelayMs ≤ outs.foldl (fun x o => recordDelayOutcome cfg o x) d ∧
      outs.foldl (fun x o => recordDelayOutcome cfg o x) d ≤ cfg.maxDelayMs := by
  intro outs
  induction outs with
  | nil => intro d h1 h2; exact ⟨h1, h2⟩
  | cons o os ih =>
    intro d h1 h2
    rw [List.foldl_cons]
    have hm := recordDelayOutcome_mem cfg hb0 hbm hs0 hs1 hf o d h1 h2
    exact ih _ hm.1 hm.2

/-- C4: starting from the base delay, every sequence of recorded outcomes
keeps the delay within `[baseDelayMs, maxDelayMs]`; a failure never
decreases the delay (it multiplies by the increase factor, capped), and a
success strictly decreases it whenever it sits above the base (it
multiplies by the decrease factor, floored). -/
theorem rateLimiter_delay_bounds (cfg : RateLimiterCfg)
    (hb0 : 0 ≤ cfg.baseDelayMs) (hbm : cfg.baseDelayMs ≤ cfg.maxDelayMs)
    (hs0 : 0 ≤ cfg.successDecreaseFactor) (hs1 : cfg.successDecreaseFactor < 1)
    (hf : 1 < cfg.failureIncreaseFactor) :
    (∀ outs : List Bool,
      cfg.baseDelayMs ≤ runDelayOutcomes cfg outs ∧
      runDelayOutcomes cfg outs ≤ cfg.maxDelayMs) ∧
    (∀ d : ℚ, cfg.baseDelayMs ≤ d → d ≤ cfg.maxDelayMs →
      d ≤ recordDelayOutcome cfg false d ∧
      recordDelayOutcome cfg false d ≤ cfg.maxDelayMs) ∧
    (∀ d : ℚ, cfg.baseDelayMs < d → recordDelayOutcome cfg true d < d) ∧
    (∀ d : ℚ, cfg.baseDelayMs ≤ recordDelayOutcome cfg true d) := by
  refine ⟨?_, ?_, ?_, ?_⟩
  · intro outs
    exact foldDelay_mem cfg hb0 hbm hs0 hs1 hf outs cfg.baseDelayMs le_rfl hbm
  · intro d h1 h2
    have hd0 : 0 ≤ d := le_trans hb0 h1
    refine ⟨le_min ?_ h2, ?_⟩
    · exact le_mul_of_one_le_right hd0 (le_of_lt hf)
    · exact min_le_right _ _
  · intro d h1
    have hd0 : 0 < d := lt_of_le_of_lt hb0 h1
    refine max_lt ?_ h1
    exact mul_lt_of_lt_one_right hd0 hs1
  · intro d
    exact le_max_right _ _

/-- C4 witness: the default configuration (base 3000ms, max 300000ms,
factors 0.9 and 2.0) over two failures and a success. -/
theorem rateLimiter_delay_bounds_witness :
    (3000 : ℚ) ≤
      runDelayOutcomes ⟨3000, 300000, 9 / 10, 2⟩ [false, false, true] ∧
    runDelayOutcomes ⟨3000, 300000, 9 / 10, 2⟩ [false, false, true] ≤
      (300000 : ℚ) :=
  (rateLimiter_delay_bounds ⟨3000, 300000, 9 / 10, 2⟩ (by norm_num)
    (by norm_num) (by norm_num) (by norm_num) (by norm_num)).1
    [false, false, true]

/-- Short of the threshold, consecutive failures leave the breaker closed
with the failures counted. -/
theorem breakerFailures_closed (threshold now : Nat) :
    ∀ k, k < threshold →
      breakerFailures threshold now initialBreaker k =
        { status := .closed, consecutiveFailures := k, openedAt := 0 } := by
  intro k
  induction k with
  | zero => intro _; rfl
  | succ j ih =>
    intro hj
    rw [breakerFailures, ih (by omega)]
    have hn : ¬ (threshold ≤ j + 1) := by omega
    simp [breakerRecord, hn]

/-- The threshold-th consecutive failure opens the breaker and stamps
`openedAt`. -/
theorem breakerFailures_opens (threshold now : Nat) (h : 0 < threshold) :
    breakerFailures threshold now initialBreaker threshold =
      { status := .opened, consecutiveFailures := threshold, openedAt := now } := by
  obtain ⟨j, rfl⟩ : ∃ j, threshold = j + 1 := ⟨threshold - 1, by omega⟩
  rw [breakerFailures, breakerFailures_closed _ now j (by omega)]
  simp [breakerRecord]

/-- C5: from a closed breaker, attempts are allowed while fewer than
`threshold` consecutive failures have been recorded; the `threshold`-th
failure opens it and `allow` refuses until `openDurationMs` has elapsed
since `openedAt`; the first `allow` after the window grants a single
half-open probe (a second call is refused); a success during the probe
closes the breaker and zeroes the failure count, while a failure reopens
it with `openedAt` restarted at the failure time. -/
theorem circuitBreaker_protocol (threshold dur tFail : Nat)
    (hth : 0 < threshold) :
    (∀ k, k < threshold →
      (breakerFailures threshold tFail initialBreaker k).status = .closed ∧
      ∀ t, (breakerAllow dur t
        (breakerFailures threshold tFail initialBreaker k)).1 = true) ∧
    breakerFailures threshold tFail initialBreaker threshold =
      { status := .opened, consecutiveFailures := threshold, openedAt := tFail } ∧
    (∀ t, t < tFail + dur →
      breakerAllow dur t
          { status := .opened, consecutiveFailures := threshold, openedAt := tFail } =
        (false,
          { status := .opened, consecutiveFailures := threshold, openedAt := tFail })) ∧
    (∀ t, tFail + dur ≤ t →
      breakerAllow dur t
          { status := .opened, consecutiveFailures := threshold, openedAt := tFail } =
        (true,
          { status := .halfOpen, consecutiveFailures := threshold, openedAt := tFail }) ∧
      ∀ t2, (breakerAllow dur t2
        { status := .halfOpen, consecutiveFailures := threshold,
          openedAt := tFail }).1 = false) ∧
    (∀ t2, breakerRecord threshold t2 true
        { status := .halfOpen, consecutiveFailures := threshold, openedAt := tFail } =
      { status := .closed, consecutiveFailures := 0, openedAt := tFail }) ∧
    (∀ t2, breakerRecord threshold t2 false
        { status := .halfOpen, consecutiveFailures := threshold, openedAt := tFail } =
      { status := .opened, consecutiveFailures := threshold + 1, openedAt := t2 }) := by
  refine ⟨?_, breakerFailures_opens threshold tFail hth, ?_, ?_, ?_, ?_⟩
  · intro k hk
    rw [breakerFailures_closed threshold tFail k hk]
    exact ⟨rfl, fun t => rfl⟩
  · intro t ht
    simp [breakerAllow, ht]
  · intro t ht
    constructor
    · simp [breakerAllow]
      omega
    · intro t2
      rfl
  · intro t2
    simp [breakerRecord]
  · intro t2
    simp [breakerRecord]

/-- C5 witness: threshold 3 and cooldown 300000ms (the defaults), failures
recorded at time 1000. -/
theorem circuitBreaker_protocol_witness :
    breakerFailures 3 1000 initialBreaker 3 =
      { status := .opened, consecutiveFailures := 3, openedAt := 1000 } ∧
    breakerAllow 300000 2000
        { status := .opened, consecutiveFailures := 3, openedAt := 1000 } =
      (false, { status := .opened, consecutiveFailures := 3, openedAt := 1000 }) ∧
    breakerAllow 300000 301000
        { status := .opened, consecutiveFailures := 3, openedAt := 1000 } =
      (true, { status := .halfOpen, consecutiveFailures := 3, openedAt := 1000 }) := by
  have h := circuitBreaker_protocol 3 300000 1000 (by decide)
  exact ⟨h.2.1, h.2.2.1 2000 (by decide), (h.2.2.2.1 301000 (by decide)).1⟩

/-- Folding `Nat.min` never exceeds the starting value. -/
theorem foldl_min_le_init (xs : List Nat) : ∀ a, xs.foldl Nat.min a ≤ a := by
  induction xs with
  | nil => intro a; exact le_rfl
  | cons x ys ih =>
    intro a
    rw [List.foldl_cons]
    exact le_trans (ih _) (Nat.min_le_left a x)

/-- Folding `Nat.min` never exceeds any list element. -/
theorem foldl_min_le_mem (xs : List Nat) :
    ∀ a x, x ∈ xs → xs.foldl Nat.min a ≤ x := by
  induction xs with
  | nil => intro a x hx; cases hx
  | cons y ys ih =>
    intro a x hx
    rw [List.foldl_cons]
    rcases List.mem_cons.1 hx with rfl | hx
    · exact le_trans (foldl_min_le_init ys _) (Nat.min_le_right a x)
    · exact ih _ _ hx

/-- The fold of `Nat.min` is the starting value or a list element. -/
theorem foldl_min_mem (xs : List Nat) :
    ∀ a, xs.foldl Nat.min a = a ∨ xs.foldl Nat.min a ∈ xs := by
  induction xs with
  | nil => intro a; exact Or.inl rfl
  | cons y ys ih =>
    intro a
    rw [List.foldl_cons]
    rcases ih (Nat.min a y) with h | h
    · rw [h]
      rcases Nat.le_total a y with h2 | h2
    -- the minimum of the head pair is the start or the head element
      · exact Or.inl (Nat.min_eq_left h2)
      · refine Or.inr ?_
        have h3 : Nat.min a y = y := Nat.min_eq_right h2
        rw [h3]
        exact List.mem_cons_self y ys
    · exact Or.inr (List.mem_cons_of_mem y h)

/-- A defined `minCandidate` returns a member that bounds every member below. -/
theorem minCandidate_spec (l : List Nat) (c : Nat) (h : minCandidate l = some c) :
    c ∈ l ∧ ∀ x ∈ l, c ≤ x := by
  cases l with
  | nil => cases h
  | cons x xs =>
    have hc : c = xs.foldl Nat.min x := (Option.some.inj h).symm
    subst hc
    constructor
    · rcases foldl_min_mem xs x with h1 | h1
      · rw [h1]; exact List.mem_cons_self x xs
      · exact List.mem_cons_of_mem x h1
    · intro y hy
      rcases List.mem_cons.1 hy with rfl | hy
      · exact foldl_min_le_init xs y
      · exact foldl_min_le_mem xs x y hy

/-- The minimum `minCandidate` yields `none` exactly on the empty list. -/
theorem minCandidate_eq_none_iff (l : List Nat) :
    minCandidate l = none ↔ l = [] := by
  cases l <;> simp [minCandidate]

/-- C1: the evaluator returns `none` exactly when no enabled rule yields a
valid candidate: on a null automation, a disabled one, absent or empty
rules, all-disabled rules, a `fixed_time` rule with a missing or
unparseable `timeOfDay`; and a malformed rule is skipped rather than
aborting the computation. -/
theorem calculateNextRunTime_none_iff (now : Nat) :
    calculateNextRunTime none now = none ∧
    (∀ a : Automation, a.enabled = false →
      calculateNextRunTime (some a) now = none) ∧
    (∀ a : Automation, a.scheduleRules = none ∨ a.scheduleRules = some [] →
      calculateNextRunTime (some a) now = none) ∧
    (∀ (a : Automation) (rules : List ScheduleRule),
      a.scheduleRules = some rules → (∀ r ∈ rules, r.enabled = false) →
      calculateNextRunTime (some a) now = none) ∧
    (∀ (a : Automation) (rules : List ScheduleRule),
      a.enabled = true → a.scheduleRules = some rules →
      (calculateNextRunTime (some a) now = none ↔
        rules.filterMap (ruleCandidate now) = [])) ∧
    (∀ r : ScheduleRule, r.enabled = true → r.type = "fixed_time" →
      (r.timeOfDay = none ∨ ∃ s, r.timeOfDay = some s ∧ parseTimeOfDay s = none) →
      ruleCandidate now r = none) ∧
    (∀ (rules : List ScheduleRule) (r : ScheduleRule),
      ruleCandidate now r = none →
      calculateNextRunTime
          (some { enabled := true, scheduleRules := some (r :: rules) }) now =
        calculateNextRunTime
          (some { enabled := true, scheduleRules := some rules }) now) := by
  refine ⟨rfl, ?_, ?_, ?_, ?_, ?_, ?_⟩
  · intro a ha
    simp [calculateNextRunTime, ha]
  · intro a h
    rcases h with h | h <;>
      cases he : a.enabled <;>
        simp [calculateNextRunTime, h, he, minCandidate]
  · intro a rules hr hall
    have hnil : rules.filterMap (ruleCandidate now) = [] := by
      rw [List.filterMap_eq_nil_iff]
      intro r hmem
      simp [ruleCandidate, hall r hmem]
    cases he : a.enabled <;>
      simp [calculateNextRunTime, hr, he, hnil, minCandidate]
  · intro a rules he hr
    simp only [calculateNextRunTime, he, Bool.not_true, Bool.false_eq_true,
      if_false, hr]
    exact minCandidate_eq_none_iff _
  · intro r he ht h
    rcases h with h | ⟨s, hs, hp⟩
    · simp [ruleCandidate, he, ht, fixedTimeCandidate, h]
    · simp [ruleCandidate, he, ht, fixedTimeCandidate, hs, hp]
  · intro rules r h
    simp [calculateNextRunTime, List.filterMap_cons, h]

/-- C1 witness: the unparseable rule yields no candidate and a disabled
automation evaluates to `none` at the pinned instant. -/
theorem calculateNextRunTime_none_iff_witness :
    ruleCandidate t20250115T1000 ruleInvalid = none ∧
    calculateNextRunTime
        (some { enabled := false, scheduleRules := some [rule1430] })
        t20250115T1000 = none := by
  have h := calculateNextRunTime_none_iff t20250115T1000
  exact ⟨h.2.2.2.2.2.1 ruleInvalid rfl rfl (Or.inr ⟨"invalid", rfl, by decide⟩),
    h.2.1 _ rfl⟩

/-- C3: whenever the evaluator yields an instant it is a candidate of the
rule set and bounds every candidate below (the minimum); with the two
test rules at 20:00 and 12:00 evaluated at 2025-01-15T10:00:00Z, the
aggregate equals the earlier candidate, 12:00 that day. -/
theorem calculateNextRunTime_min_of_candidates (now : Nat) :
    (∀ (a : Automation) (rules : List ScheduleRule) (c : Nat),
      a.scheduleRules = some rules →
      calculateNextRunTime (some a) now = some c →
      c ∈ rules.filterMap (ruleCandidate now) ∧
      ∀ x ∈ rules.filterMap (ruleCandidate now), c ≤ x) ∧
    ruleCandidate t20250115T1000 rule2000 =
      some (day20250115 * msPerDay + 20 * msPerHour) ∧
    ruleCandidate t20250115T1000 rule1200 =
      some (day20250115 * msPerDay + 12 * msPerHour) ∧
    calculateNextRunTime
        (some { enabled := true, scheduleRules := some [rule2000, rule1200] })
        t20250115T1000 =
      some (Nat.min (day20250115 * msPerDay + 20 * msPerHour)
        (day20250115 * msPerDay + 12 * msPerHour)) := by
  refine ⟨?_, by decide, by decide, by decide⟩
  intro a rules c hr hc
  cases he : a.enabled with
  | false => simp [calculateNextRunTime, he] at hc
  | true =>
    simp only [calculateNextRunTime, he, Bool.not_true, Bool.false_eq_true,
      if_false, hr] at hc
    exact minCandidate_spec _ _ hc

/-- C3 witness: the minimality consequence at the concrete two-rule
automation of the test suite. -/
theorem calculateNextRunTime_min_of_candidates_witness :
    Nat.min (day20250115 * msPerDay + 20 * msPerHour)
        (day20250115 * msPerDay + 12 * msPerHour) ∈
      [rule2000, rule1200].filterMap (ruleCandidate t20250115T1000) ∧
    ∀ x ∈ [rule2000, rule1200].filterMap (ruleCandidate t20250115T1000),
      Nat.min (day20250115 * msPerDay + 20 * msPerHour)
        (day20250115 * msPerDay + 12 * msPerHour) ≤ x :=
  (calculateNextRunTime_min_of_candidates t20250115T1000).1
    { enabled := true, scheduleRules := some [rule2000, rule1200] }
    [rule2000, rule1200] _ rfl (by decide)

/-- The day scan yields exactly the first accepted day offset within its
fuel window. -/
theorem fixedTimeScan_eq_some_iff (now h m : Nat) (dows : Option (List String)) :
    ∀ (fuel start c : Nat),
      fixedTimeScan now h m dows fuel start = some c ↔
        ∃ d, d < fuel ∧ acceptDay now h m dows (start + d) = true ∧
          c = candAt now h m (start + d) ∧
          ∀ e, e < d → acceptDay now h m dows (start + e) = false := by
  intro fuel
  induction fuel with
  | zero =>
    intro start c
    simp [fixedTimeScan]
  | succ f ih =>
    intro start c
    rw [fixedTimeScan]
    by_cases hacc : acceptDay now h m dows start = true
    · rw [if_pos hacc]
      constructor
      · intro hsome
        refine ⟨0, by omega, by simpa using hacc,
          by simpa using (Option.some.inj hsome).symm, ?_⟩
        intro e he
        omega
      · rintro ⟨d, _, _, hc, hmin⟩
        have hd0 : d = 0 := by
          by_contra hne
          have h0 := hmin 0 (by omega)
          rw [Nat.add_zero] at h0
          rw [h0] at hacc
          cases hacc
        subst hd0
        rw [Nat.add_zero] at hc
        rw [hc]
    · rw [if_neg hacc]
      have hfalse : acceptDay now h m dows start = false := by
        cases hval : acceptDay now h m dows start
        · rfl
        · exact absurd hval hacc
      rw [ih (start + 1) c]
      constructor
      · rintro ⟨d, hd, hdacc, hc, hmin⟩
        refine ⟨d + 1, by omega, ?_, ?_, ?_⟩
        · rw [show start + (d + 1) = start + 1 + d by omega]
          exact hdacc
        · rw [show start + (d + 1) = start + 1 + d by omega]
          exact hc
        · intro e he
          cases e with
          | zero => simpa using hfalse
          | succ e2 =>
            rw [show start + (e2 + 1) = start + 1 + e2 by omega]
            exact hmin e2 (by omega)
      · rintro ⟨d, hd, hdacc, hc, hmin⟩
        cases d with
        | zero =>
          rw [Nat.add_zero] at hdacc
          rw [hfalse] at hdacc
          cases hdacc
        | succ d2 =>
          refine ⟨d2, by omega, ?_, ?_, ?_⟩
          · rw [show start + 1 + d2 = start + (d2 + 1) by omega]
            exact hdacc
          · rw [show start + 1 + d2 = start + (d2 + 1) by omega]
            exact hc
          · intro e he
            rw [show start + 1 + e = start + (e + 1) by omega]
            exact hmin (e + 1) (by omega)

/-- C2: an enabled `fixed_time` rule with a valid `HH:MM` time yields an
instant exactly when some day among the 8 starting at `now`'s date is
accepted (strictly-future instant, weekday allowed), and then it is the
instant of the first such day; at 2025-01-15T10:00:00Z a rule at 14:30
yields 2025-01-15 at 14:30 and a rule at 08:00 (already passed) yields
2025-01-16. -/
theorem fixedTime_candidate_scan :
    (∀ (now : Nat) (r : ScheduleRule) (s : String) (h m : Nat),
      r.enabled = true → r.type = "fixed_time" → r.timeOfDay = some s →
      parseTimeOfDay s = some (h, m) →
      ∀ c, ruleCandidate now r = some c ↔
        ∃ d, d < 8 ∧ acceptDay now h m r.daysOfWeek d = true ∧
          c = candAt now h m d ∧
          ∀ e, e < d → acceptDay now h m r.daysOfWeek e = false) ∧
    calculateNextRunTime (some (autoWith rule1430)) t20250115T1000 =
      some (day20250115 * msPerDay + (14 * 60 + 30) * msPerMinute) ∧
    calculateNextRunTime (some (autoWith rule0800)) t20250115T1000 =
      some ((day20250115 + 1) * msPerDay + 8 * msPerHour) ∧
    civilFromDays day20250115 = (2025, 1, 15) := by
  refine ⟨?_, by decide, by decide, by decide⟩
  intro now r s h m he ht hs hp c
  have hrc : ruleCandidate now r = fixedTimeScan now h m r.daysOfWeek 8 0 := by
    simp [ruleCandidate, he, ht, fixedTimeCandidate, hs, hp]
  rw [hrc]
  have hiff := fixedTimeScan_eq_some_iff now h m r.daysOfWeek 8 0 c
  simpa using hiff

/-- C2 witness: the 14:30 rule at the pinned instant, with the scan
characterization instantiated there. -/
theorem fixedTime_candidate_scan_witness :
    ∃ d, d < 8 ∧
      acceptDay t20250115T1000 14 30 rule1430.daysOfWeek d = true ∧
      day20250115 * msPerDay + (14 * 60 + 30) * msPerMinute =
        candAt t20250115T1000 14 30 d ∧
      ∀ e, e < d → acceptDay t20250115T1000 14 30 rule1430.daysOfWeek e = false :=
  ((fixedTime_candidate_scan).1 t20250115T1000 rule1430 "14:30" 14 30
    rfl rfl rfl (by decide) _).mp (by decide)

/-- The marker `"In"` occurs at the front of `"In " ++ x`. -/
theorem in_infix_append (x : String) :
    List.IsInfix ("In".data) (("In " ++ x).data) := by
  refine ⟨[], ' ' :: x.data, ?_⟩
  rw [String.data_append]
  rfl

/-- C6: the formatter renders `"Not scheduled"` exactly when the evaluator
yields `none`; otherwise it tiers `delta = nextRunTime - now` as a
sub-minute wording, `"In Xm"`, `"In Xh"`, `"In Xd"`, and the absolute
date/time rendering once at least a week away; every relative tier
contains the substring `"In"`. -/
theorem formatNextRunTime_tiers (auto : Option Automation) (now : Nat) :
    (calculateNextRunTime auto now = none →
      formatNextRunTime auto now = "Not scheduled") ∧
    (∀ t, calculateNextRunTime auto now = some t →
      (t - now < msPerMinute → formatNextRunTime auto now = "In <1m") ∧
      (msPerMinute ≤ t - now → t - now < msPerHour →
        formatNextRunTime auto now =
          "In " ++ toString ((t - now) / msPerMinute) ++ "m") ∧
      (msPerHour ≤ t - now → t - now < msPerDay →
        formatNextRunTime auto now =
          "In " ++ toString ((t - now) / msPerHour) ++ "h") ∧
      (msPerDay ≤ t - now → t - now < 7 * msPerDay →
        formatNextRunTime auto now =
          "In " ++ toString ((t - now) / msPerDay) ++ "d") ∧
      (7 * msPerDay ≤ t - now →
        formatNextRunTime auto now = formatAbsolute t) ∧
      (t - now < 7 * msPerDay →
        List.IsInfix ("In".data) ((formatNextRunTime auto now).data))) := by
  constructor
  · intro h
    simp [formatNextRunTime, h]
  · intro t ht
    have hfmt : formatNextRunTime auto now =
        (if t - now < msPerMinute then "In <1m"
         else if t - now < msPerHour then
           "In " ++ toString ((t - now) / msPerMinute) ++ "m"
         else if t - now < msPerDay then
           "In " ++ toString ((t - now) / msPerHour) ++ "h"
         else if t - now < 7 * msPerDay then
           "In " ++ toString ((t - now) / msPerDay) ++ "d"
         else formatAbsolute t) := by
      simp [formatNextRunTime, ht]
    refine ⟨?_, ?_, ?_, ?_, ?_, ?_⟩
    · intro h1
      rw [hfmt, if_pos h1]
    · intro h1 h2
      rw [hfmt, if_neg (by omega), if_pos h2]
    · intro h1 h2
      rw [hfmt, if_neg (by simp [msPerMinute, msPerHour] at h1 ⊢; omega),
        if_neg (by omega), if_pos h2]
    · intro h1 h2
      rw [hfmt, if_neg (by simp [msPerMinute, msPerDay] at h1 ⊢; omega),
        if_neg (by simp [msPerHour, msPerDay] at h1 ⊢; omega),
        if_neg (by omega), if_pos h2]
    · intro h1
      rw [hfmt, if_neg (by simp [msPerMinute, msPerDay] at h1 ⊢; omega),
        if_neg (by simp [msPerHour, msPerDay] at h1 ⊢; omega),
        if_neg (by simp [msPerDay] at h1 ⊢; omega),
        if_neg (by omega)]
    · intro h7
      rw [hfmt]
      by_cases h1 : t - now < msPerMinute
      · rw [if_pos h1]
        decide
      · rw [if_neg h1]
        by_cases h2 : t - now < msPerHour
        · rw [if_pos h2]
          exact in_infix_append _
        · rw [if_neg h2]
          by_cases h3 : t - now < msPerDay
          · rw [if_pos h3]
            exact in_infix_append _
          · rw [if_neg h3]
            rw [if_pos h7]
            exact in_infix_append _

/-- C6 witness: the 14:30 rule at the pinned instant renders in the hours
tier. -/
theorem formatNextRunTime_tiers_witness :
    formatNextRunTime (some (autoWith rule1430)) t20250115T1000 =
      "In " ++
        toString ((day20250115 * msPerDay + (14 * 60 + 30) * msPerMinute -
          t20250115T1000) / msPerHour) ++ "h" := by
  have h := (formatNextRunTime_tiers (some (autoWith rule1430))
    t20250115T1000).2
    (day20250115 * msPerDay + (14 * 60 + 30) * msPerMinute) (by decide)
  exact h.2.2.1 (by decide) (by decide)

end Isekai
